import Mathlib

/-!
Verification of the ReflectAi pipeline runner (`run_pipeline.py`).

The development shallowly embeds the pipeline-executor core of `main`:
building the agent map, splitting off the terminal `MarkdownLogger` stage,
the main stage loop with its skip/success/halt outcomes, per-agent model
resolution, signature-driven parameter binding, and the final logger
invocation.  External effects (dynamic module loading and the agent
callables themselves) are abstracted as an environment of oracles, so the
executor itself is a pure function of the configuration, the input text
and that environment.
-/

namespace ReflectAi

/-- A configuration parameter value (JSON scalar passed through to agents). -/
inductive Value where
  | str (s : String)
  | nat (n : Nat)
  | bool (b : Bool)
  deriving DecidableEq, Repr

/-- One entry of `pipeline_config.json`'s `agents` list: `name`, optional
`path`, optional `gpt_version` override, and extra `params`. -/
structure AgentSpec where
  name : String
  path : Option String
  gpt_version : Option String
  params : List (String × Value)
  deriving DecidableEq, Repr

/-- `agents_map[name]` lookup.  `agents_map` is a Python dict comprehension
over the config list, so a later spec with the same name overwrites an
earlier one: the lookup finds the last matching entry. -/
def lookupAgent (agents : List AgentSpec) (n : String) : Option AgentSpec :=
  agents.reverse.find? (fun a => a.name == n)

/-- One record of `pipeline_run_history`: `{'agent_name': ..., 'output_text': ...}`. -/
structure StepRecord where
  agent_name : String
  output_text : String
  deriving DecidableEq, Repr

/-- The introspected signature of an agent's `process_text`:
the named (positional-or-keyword) parameters, in declaration order, and
the name of the `**kwargs` parameter when one is declared.  Python's
`sig.parameters` mapping contains the `**kwargs` binder as well. -/
structure Sig where
  fixed : List String
  varKeyword : Option String
  deriving DecidableEq, Repr

/-- `p in sig.parameters` (Boolean form): `p` is a fixed parameter name or
the `**kwargs` binder name. -/
def Sig.memB (s : Sig) (p : String) : Bool :=
  s.fixed.contains p || s.varKeyword == some p

/-- The iteration order of `sig.parameters.items()`: the fixed parameters,
then the `**kwargs` binder (flagged `true`) last. -/
def Sig.paramList (s : Sig) : List (String × Bool) :=
  s.fixed.map (fun n => (n, false)) ++
    (match s.varKeyword with
     | some n => [(n, true)]
     | none => [])

/-- An agent callable: its signature, and its behaviour on a keyword
argument set — `Except.error` models the call raising an exception. -/
structure Callable where
  sig : Sig
  run : List (String × Value) → Except String String

/-- The three structural failures of `load_agent_function`:
`FileNotFoundError`, `ImportError` (spec or loader missing / module
execution failure), and `AttributeError` (no `process_text`). -/
inductive LoadError where
  | fileNotFound
  | importError
  | attributeError
  deriving DecidableEq, Repr

/-- What a stage can fail with inside the `try` of the main loop: a load
failure, or an exception raised by the invocation itself. -/
inductive PipelineError where
  | loadError (e : LoadError)
  | invocationError (msg : String)
  deriving DecidableEq, Repr

/-- The keyword-argument set the logger is invoked with
(`log_func(**log_call_args)`). -/
structure LoggerCall where
  initial_input : String
  pipeline_steps : List StepRecord
  original_filename_base : String
  verbosity_level : Option Nat
  deriving DecidableEq, Repr

/-- The dynamically loaded MarkdownLogger module: whether it exposes
`log_run_to_markdown`, whether that function declares `verbosity_level`,
and its behaviour. -/
structure LoggerModule where
  hasLogFunc : Bool
  acceptsVerbosity : Bool
  run : LoggerCall → Except String String

/-- The external world the executor consults: dynamic module loading for
agents and for the logger, and the `GOOGLE_GEMINI_MODEL_NAME` environment
variable. -/
structure Env where
  loadAgent : String → Except LoadError Callable
  loadLogger : String → Except String LoggerModule
  envModelName : Option String

/-- Python `str.strip()`: drop whitespace from both ends
(modelled over the character list so that it evaluates). -/
def pyStrip (s : String) : String :=
  String.mk
    (((s.data.dropWhile Char.isWhitespace).reverse.dropWhile
        Char.isWhitespace).reverse)

/-- Python `str.lower()` (ASCII case folding, modelled over the character
list so that it evaluates). -/
def pyLower (s : String) : String :=
  String.mk (s.data.map Char.toLower)

/-- Where the effective model name came from (diagnostic only). -/
inductive ModelSource where
  | agentInternalDefault
  | pipelineConfig
  | envVar
  deriving DecidableEq, Repr

/-- Model resolution for one agent (lines 340–351 of `run_pipeline.py`):
the per-agent `gpt_version` wins when it is truthy, has non-whitespace
content, and its lowercasing is not the sentinel `"n/a"`; otherwise the
environment default wins when truthy with non-whitespace content;
otherwise no model is passed and the agent's internal default governs. -/
def resolveModel (gptVersion envModel : Option String) : Option String × ModelSource :=
  match gptVersion with
  | some c =>
    if c != "" && pyStrip c != "" && pyLower c != "n/a" then
      (some c, ModelSource.pipelineConfig)
    else
      match envModel with
      | some e => if e != "" && pyStrip e != "" then (some e, ModelSource.envVar)
                  else (none, ModelSource.agentInternalDefault)
      | none => (none, ModelSource.agentInternalDefault)
  | none =>
    match envModel with
    | some e => if e != "" && pyStrip e != "" then (some e, ModelSource.envVar)
                else (none, ModelSource.agentInternalDefault)
    | none => (none, ModelSource.agentInternalDefault)

/-- `p_name in ['text', 'model_name', 'verbosity_level']`. -/
def isReserved (p : String) : Bool :=
  p == "text" || p == "model_name" || p == "verbosity_level"

/-- First-match lookup in a keyword-argument list (a Python dict has unique
keys, so first match is the dict lookup). -/
def lookupParam (ps : List (String × Value)) (n : String) : Option Value :=
  (ps.find? (fun kv => kv.1 == n)).map (fun kv => kv.2)

/-- One iteration of the loop over `sig.parameters.items()` building
`accepted_params_by_agent_func`: a non-reserved parameter present in
`configured_params` takes that configured value; otherwise, at the
`**kwargs` parameter, every configured entry that names no parameter of
the signature and is not reserved is swept in; any other parameter
contributes nothing. -/
def acceptedHead (sig : Sig) (configured : List (String × Value))
    (pn : String) (isVk : Bool) : List (String × Value) :=
  match lookupParam configured pn, isReserved pn with
  | some v, false => [(pn, v)]
  | _, _ =>
    if isVk then
      configured.filter (fun kv => !(sig.memB kv.1) && !(isReserved kv.1))
    else []

/-- The whole loop over `sig.parameters.items()`. -/
def acceptedLoop (sig : Sig) (configured : List (String × Value)) :
    List (String × Bool) → List (String × Value)
  | [] => []
  | (pn, isVk) :: rest =>
    acceptedHead sig configured pn isVk ++ acceptedLoop sig configured rest

/-- `accepted_params_by_agent_func` for a signature and configured params. -/
def acceptedParams (sig : Sig) (configured : List (String × Value)) :
    List (String × Value) :=
  acceptedLoop sig configured sig.paramList

/-- `call_args` construction (lines 366–382): always `text`; `model_name`
only when the signature has such a parameter and a model was resolved;
`verbosity_level` only when the signature has such a parameter; then the
accepted configured params. -/
def bindParameters (sig : Sig) (configured : List (String × Value))
    (text : String) (modelName : Option String) (verbosity : Nat) :
    List (String × Value) :=
  [("text", Value.str text)] ++
  (if sig.memB "model_name" then
     match modelName with
     | some m => [("model_name", Value.str m)]
     | none => []
   else []) ++
  (if sig.memB "verbosity_level" then [("verbosity_level", Value.nat verbosity)]
   else []) ++
  acceptedParams sig configured

/-- The outcome of one iteration of the main loop for one stage name. -/
inductive StageOutcome where
  | skipped
  | success (out : String)
  | halted (err : PipelineError)

/-- One main-loop iteration (lines 318–402): skip when the name is not in
the agent map or its path is unset/empty; otherwise load the callable,
resolve the model, bind the parameters against the callable's signature and
invoke it; a load failure or a raised exception halts. -/
def execStage (env : Env) (agents : List AgentSpec) (verbose : Bool)
    (name : String) (currentText : String) : StageOutcome :=
  match lookupAgent agents name with
  | none => StageOutcome.skipped
  | some spec =>
    match spec.path with
    | none => StageOutcome.skipped
    | some p =>
      if p == "" then StageOutcome.skipped
      else
        match env.loadAgent p with
        | Except.error e => StageOutcome.halted (PipelineError.loadError e)
        | Except.ok c =>
          let model := (resolveModel spec.gpt_version env.envModelName).1
          let args := bindParameters c.sig spec.params currentText model
            (if verbose then 2 else 0)
          match c.run args with
          | Except.error m => StageOutcome.halted (PipelineError.invocationError m)
          | Except.ok out => StageOutcome.success out

/-- Result of the main stage loop: it either runs off the end of the stage
list, or an iteration's `except` branch returns from `main` with the
history accumulated so far. -/
inductive RunOutcome where
  | finished (finalText : String) (history : List StepRecord)
  | halted (err : PipelineError) (history : List StepRecord)
  deriving DecidableEq, Repr

/-- The main stage loop: threads `current_text`, appends one `StepRecord`
per successful stage, skips no-op stages, and returns (halting the whole
run) at the first structural failure. -/
def runMainLoop (env : Env) (agents : List AgentSpec) (verbose : Bool) :
    List String → String → List StepRecord → RunOutcome
  | [], current, hist => RunOutcome.finished current hist
  | name :: rest, current, hist =>
    match execStage env agents verbose name current with
    | StageOutcome.skipped => runMainLoop env agents verbose rest current hist
    | StageOutcome.success out =>
        runMainLoop env agents verbose rest out
          (hist ++ [⟨name, out⟩])
    | StageOutcome.halted e => RunOutcome.halted e hist

/-- Lines 304–315: `MarkdownLogger` is pulled out of the loop exactly when
it is a key of the agent map, occurs in the execution order, and is its
last element; then the loop runs on the order with the last element
popped.  Otherwise (including the present-but-not-last case, which only
warns) the order is left untouched and no logger is extracted. -/
def splitLogger (agents : List AgentSpec) (order : List String) :
    Option AgentSpec × List String :=
  if (lookupAgent agents "MarkdownLogger").isSome && order.contains "MarkdownLogger" then
    if order.getLast? == some "MarkdownLogger" then
      (lookupAgent agents "MarkdownLogger", order.dropLast)
    else (none, order)
  else (none, order)

/-- What became of the logger section (lines 473–510) of a run.
`inspectUnbound` is the `UnboundLocalError` of line 490: the section reads
the loop-local `inspect` (imported only at line 353, inside a main-loop
iteration that loaded its agent successfully), so when no stage bound it
the reference raises and is caught by the `except` at line 505. -/
inductive LoggerOutcome where
  | skippedHalted
  | notConfigured
  | pathMissing
  | loadError (msg : String)
  | noEntryPoint
  | inspectUnbound
  | ran (call : LoggerCall) (status : Except String String)

/-- The logger section, reached only with `markdown_logger_details` set:
skip when its path is unset/empty; load the module (failures caught and
reported); require `log_run_to_markdown` (line 487); then line 490 reads
`inspect.signature(log_func)` — `inspect` is a local of `main`, bound only
at line 353 inside a successfully loaded main-loop iteration, so when
`inspectBound` is false the section raises `UnboundLocalError` before
`log_call_args` is even built and the `except` at line 505 reports it;
otherwise the logger is called with the initial input, the entire run
history, the initial input as filename base, and the verbosity level when
the function declares it. -/
def invokeLogger (env : Env) (details : AgentSpec) (verbose : Bool)
    (initialInput : String) (history : List StepRecord)
    (inspectBound : Bool) : LoggerOutcome :=
  match details.path with
  | none => LoggerOutcome.pathMissing
  | some p =>
    if p == "" then LoggerOutcome.pathMissing
    else
      match env.loadLogger p with
      | Except.error m => LoggerOutcome.loadError m
      | Except.ok lm =>
        if lm.hasLogFunc then
          if inspectBound then
            let call : LoggerCall :=
              { initial_input := initialInput
                pipeline_steps := history
                original_filename_base := initialInput
                verbosity_level :=
                  if lm.acceptsVerbosity then some (if verbose then 2 else 0)
                  else none }
            LoggerOutcome.ran call (lm.run call)
          else LoggerOutcome.inspectUnbound
        else LoggerOutcome.noEntryPoint

/-- A whole run: the main loop's outcome plus what the logger section did. -/
structure PipelineResult where
  outcome : RunOutcome
  loggerOutcome : LoggerOutcome

/-- The pipeline core of `main` after the input text is established
(lines 298–510): split off the logger, run the main loop, and — only when
the loop finished rather than returned early on a failure — run the logger
section when a logger was extracted.  A halt inside the loop `return`s
from `main`, so the logger section is never reached on a halted run.

The logger section's `inspectBound` input: in a finished run every stage
was either skipped before its `try` block or ran to a successful append,
and the loop-local `import inspect` at line 353 executes exactly in the
iterations that loaded their agent — so `inspect` is bound at line 490 if
and only if at least one stage succeeded, i.e. iff the finished history is
nonempty. -/
def runPipeline (env : Env) (agents : List AgentSpec) (order : List String)
    (verbose : Bool) (initialInput : String) : PipelineResult :=
  match runMainLoop env agents verbose (splitLogger agents order).2 initialInput [] with
  | RunOutcome.halted e h =>
      ⟨RunOutcome.halted e h, LoggerOutcome.skippedHalted⟩
  | RunOutcome.finished ft h =>
      match (splitLogger agents order).1 with
      | none => ⟨RunOutcome.finished ft h, LoggerOutcome.notConfigured⟩
      | some d =>
          ⟨RunOutcome.finished ft h,
            invokeLogger env d verbose initialInput h (!h.isEmpty)⟩

/-- `main` including the startup guards: with no execution order or no
agents it returns before any run is attempted. -/
def mainRun (env : Env) (agents : List AgentSpec) (order : List String)
    (verbose : Bool) (initialInput : String) : Option PipelineResult :=
  if order.isEmpty || agents.isEmpty then none
  else some (runPipeline env agents order verbose initialInput)

/-- The skip condition of one main-loop iteration: the name is not a key
of the agent map, or its `path` is unset or empty (Python falsy). -/
def isSkippedStage (agents : List AgentSpec) (n : String) : Bool :=
  match lookupAgent agents n with
  | none => true
  | some s =>
    match s.path with
    | none => true
    | some p => p == ""

/-- The stage named `n` is present in the agent map with a set path, its
module loads, and any invocation of its callable returns normally. -/
def succeedsStage (env : Env) (agents : List AgentSpec) (n : String) : Prop :=
  ∃ spec p c, lookupAgent agents n = some spec ∧ spec.path = some p ∧ p ≠ "" ∧
    env.loadAgent p = Except.ok c ∧
    ∀ args, ∃ out, c.run args = Except.ok out

/-- `current_text` as a function of the history: the output of the most
recently appended record, or the initial input when the history is empty. -/
def lastOutputOr (hist : List StepRecord) (input : String) : String :=
  match hist.getLast? with
  | some r => r.output_text
  | none => input

/-! Concrete fixtures used by the witness theorems. -/

/-- A signature taking only `text` (like most agents in the repo). -/
def sigTextOnly : Sig := ⟨["text"], none⟩

/-- A callable that always returns `out`. -/
def okCallable (out : String) : Callable :=
  ⟨sigTextOnly, fun _ => Except.ok out⟩

/-- A logger module exposing `log_run_to_markdown` without a
`verbosity_level` parameter. -/
def wLoggerModule : LoggerModule :=
  ⟨true, false, fun _ => Except.ok "Log saved"⟩

/-- A concrete environment: `a.py`, `b.py`, `ml.py` load fine, anything
else raises `FileNotFoundError`; only `ml.py` loads as a logger module. -/
def wEnv : Env :=
  ⟨fun p =>
      if p == "a.py" then Except.ok (okCallable "OUT-A")
      else if p == "b.py" then Except.ok (okCallable "OUT-B")
      else if p == "ml.py" then Except.ok (okCallable "OUT-ML")
      else Except.error LoadError.fileNotFound,
   fun p =>
      if p == "ml.py" then Except.ok wLoggerModule
      else Except.error "logger load failed",
   none⟩

/-- Concrete agent specs for the witnesses. -/
def specA : AgentSpec := ⟨"A", some "a.py", none, []⟩

def specB : AgentSpec := ⟨"B", some "b.py", none, []⟩

def specBad : AgentSpec := ⟨"Bad", some "missing.py", none, []⟩

def specML : AgentSpec := ⟨"MarkdownLogger", some "ml.py", none, []⟩

/-! ### Helper lemmas -/

theorem mem_of_getLast?_eq_some {l : List String} {a : String}
    (h : l.getLast? = some a) : a ∈ l := by
  induction l with
  | nil => simp at h
  | cons x xs ih =>
    cases xs with
    | nil =>
      simp [List.getLast?] at h
      simp [h]
    | cons y ys =>
      rw [List.getLast?_cons_cons] at h
      exact List.mem_cons_of_mem x (ih h)

theorem pyStrip_ne_empty {c : String} (h : pyStrip c ≠ "") : c ≠ "" := by
  intro hc
  subst hc
  exact h rfl

/-! ### C6: model resolution priority -/

/-- C6: the effective model name is resolved by fixed priority — the
per-agent `gpt_version` when non-empty after trimming and not
case-insensitively the sentinel `"n/a"`; else the environment default
when non-empty after trimming; else none, the agent's internal default
governing.  Identical inputs give identical results. -/
theorem resolveModel_priority (cfg env : Option String) :
    (∀ c, cfg = some c → pyStrip c ≠ "" → pyLower c ≠ "n/a" →
        resolveModel cfg env = (some c, ModelSource.pipelineConfig)) ∧
    ((∀ c, cfg = some c → pyStrip c = "" ∨ pyLower c = "n/a") →
      ∀ e, env = some e → pyStrip e ≠ "" →
        resolveModel cfg env = (some e, ModelSource.envVar)) ∧
    ((∀ c, cfg = some c → pyStrip c = "" ∨ pyLower c = "n/a") →
      (∀ e, env = some e → pyStrip e = "") →
        resolveModel cfg env = (none, ModelSource.agentInternalDefault)) ∧
    resolveModel cfg env = resolveModel cfg env := by
  refine ⟨?_, ?_, ?_, rfl⟩
  · intro c hcfg h1 h2
    subst hcfg
    have hc : c ≠ "" := pyStrip_ne_empty h1
    have hcond : (c != "" && pyStrip c != "" && pyLower c != "n/a") = true := by
      simp [bne_iff_ne, hc, h1, h2]
    simp [resolveModel, hcond]
  · intro hno e henv h1
    subst henv
    have he : e ≠ "" := pyStrip_ne_empty h1
    have hcond : (e != "" && pyStrip e != "") = true := by
      simp [bne_iff_ne, he, h1]
    cases cfg with
    | none => simp [resolveModel, hcond]
    | some c =>
      have hbad : (c != "" && pyStrip c != "" && pyLower c != "n/a") = false := by
        rcases hno c rfl with h | h <;> simp [bne_iff_ne, h]
      simp [resolveModel, hbad, hcond]
  · intro hno hnoe
    cases cfg with
    | none =>
      cases env with
      | none => simp [resolveModel]
      | some e =>
        have hbad : (e != "" && pyStrip e != "") = false := by
          simp [bne_iff_ne, hnoe e rfl]
        simp [resolveModel, hbad]
    | some c =>
      have hbadc : (c != "" && pyStrip c != "" && pyLower c != "n/a") = false := by
        rcases hno c rfl with h | h <;> simp [bne_iff_ne, h]
      cases env with
      | none => simp [resolveModel, hbadc]
      | some e =>
        have hbad : (e != "" && pyStrip e != "") = false := by
          simp [bne_iff_ne, hnoe e rfl]
        simp [resolveModel, hbadc, hbad]

/-- Witness for C6: a concrete per-agent override wins. -/
theorem resolveModel_priority_witness :
    resolveModel (some "gemini-1.5-pro") (some "gemini-1.5-flash") =
      (some "gemini-1.5-pro", ModelSource.pipelineConfig) :=
  (resolveModel_priority (some "gemini-1.5-pro") (some "gemini-1.5-flash")).1
    "gemini-1.5-pro" rfl (by decide) (by decide)

theorem runPipeline_outcome_eq (env : Env) (agents : List AgentSpec)
    (order : List String) (verbose : Bool) (input : String) :
    (runPipeline env agents order verbose input).outcome =
      runMainLoop env agents verbose (splitLogger agents order).2 input [] := by
  unfold runPipeline
  cases hrm : runMainLoop env agents verbose (splitLogger agents order).2 input [] with
  | halted e h => rfl
  | finished ft h => cases (splitLogger agents order).1 <;> rfl

theorem runPipeline_loggerOutcome_eq (env : Env) (agents : List AgentSpec)
    (order : List String) (verbose : Bool) (input : String) :
    (runPipeline env agents order verbose input).loggerOutcome =
      match runMainLoop env agents verbose (splitLogger agents order).2 input [] with
      | RunOutcome.halted _ _ => LoggerOutcome.skippedHalted
      | RunOutcome.finished _ h =>
        match (splitLogger agents order).1 with
        | none => LoggerOutcome.notConfigured
        | some d => invokeLogger env d verbose input h (!h.isEmpty) := by
  unfold runPipeline
  cases hrm : runMainLoop env agents verbose (splitLogger agents order).2 input [] with
  | halted e h => rfl
  | finished ft h => cases (splitLogger agents order).1 <;> rfl

theorem splitLogger_eq_of_last (agents : List AgentSpec) (order : List String)
    (hsome : (lookupAgent agents "MarkdownLogger").isSome)
    (hlast : order.getLast? = some "MarkdownLogger") :
    splitLogger agents order = (lookupAgent agents "MarkdownLogger", order.dropLast) := by
  have hmem : "MarkdownLogger" ∈ order := mem_of_getLast?_eq_some hlast
  have hcond : ((lookupAgent agents "MarkdownLogger").isSome &&
      order.contains "MarkdownLogger") = true := by
    simp [hsome, hmem]
  have hlast' : (order.getLast? == some "MarkdownLogger") = true := by
    simp [hlast]
  unfold splitLogger
  rw [hcond, hlast']
  simp

theorem splitLogger_eq_of_not_last (agents : List AgentSpec) (order : List String)
    (h : ¬ ((lookupAgent agents "MarkdownLogger").isSome ∧
        order.getLast? = some "MarkdownLogger")) :
    splitLogger agents order = (none, order) := by
  unfold splitLogger
  by_cases hsome : (lookupAgent agents "MarkdownLogger").isSome
  · by_cases hmem : "MarkdownLogger" ∈ order
    · have hlast : order.getLast? ≠ some "MarkdownLogger" :=
        fun hl => h ⟨hsome, hl⟩
      have hcond : ((lookupAgent agents "MarkdownLogger").isSome &&
          order.contains "MarkdownLogger") = true := by
        simp [hsome, hmem]
      have hlast' : (order.getLast? == some "MarkdownLogger") = false := by
        simp [hlast]
      rw [hcond, hlast']
      simp
    · have hcond : ((lookupAgent agents "MarkdownLogger").isSome &&
          order.contains "MarkdownLogger") = false := by
        simp [hmem]
      rw [hcond]
      simp
  · have h0 : (lookupAgent agents "MarkdownLogger").isSome = false := by
      simpa using hsome
    have hcond : ((lookupAgent agents "MarkdownLogger").isSome &&
        order.contains "MarkdownLogger") = false := by
      rw [h0]
      rfl
    rw [hcond]
    simp

theorem splitLogger_fst_eq (agents : List AgentSpec) (order : List String)
    (d : AgentSpec) (hd : (splitLogger agents order).1 = some d) :
    order.getLast? = some "MarkdownLogger" ∧
      lookupAgent agents "MarkdownLogger" = some d := by
  by_cases hc : ((lookupAgent agents "MarkdownLogger").isSome ∧
      order.getLast? = some "MarkdownLogger")
  · have hsp := splitLogger_eq_of_last agents order hc.1 hc.2
    rw [hsp] at hd
    exact ⟨hc.2, hd⟩
  · rw [splitLogger_eq_of_not_last agents order hc] at hd
    simp at hd

/-! ### C2: logger extraction iff present and last -/

/-- C2: `MarkdownLogger` is split off for the logger contract iff it is a
key of the agent map and the last element of the execution order; when it
appears only elsewhere (or is absent from the map) it stays among the main
stages — the order is left untouched, nothing is extracted, and the logger
contract is never invoked on the run, the stage being handled by the
ordinary main loop instead. -/
theorem markdownLogger_extraction (agents : List AgentSpec) (order : List String) :
    (((lookupAgent agents "MarkdownLogger").isSome ∧
        order.getLast? = some "MarkdownLogger") →
      splitLogger agents order =
        (lookupAgent agents "MarkdownLogger", order.dropLast)) ∧
    (¬ ((lookupAgent agents "MarkdownLogger").isSome ∧
        order.getLast? = some "MarkdownLogger") →
      splitLogger agents order = (none, order) ∧
      ∀ env verbose input c s,
        (runPipeline env agents order verbose input).loggerOutcome ≠
          LoggerOutcome.ran c s) := by
  constructor
  · rintro ⟨hsome, hlast⟩
    exact splitLogger_eq_of_last agents order hsome hlast
  · intro h
    have hsplit := splitLogger_eq_of_not_last agents order h
    refine ⟨hsplit, ?_⟩
    intro env verbose input c s
    rw [runPipeline_loggerOutcome_eq]
    simp only [hsplit]
    cases runMainLoop env agents verbose order input [] with
    | halted e hh => simp
    | finished ft hh => simp

/-- Witness for C2: with `MarkdownLogger` configured and last, it is
extracted and the order loses its last element. -/
theorem markdownLogger_extraction_witness :
    splitLogger [⟨"MarkdownLogger", some "agents/MarkdownLogger/MarkdownLogger.py", none, []⟩]
        ["HumorAgent", "MarkdownLogger"] =
      (some ⟨"MarkdownLogger", some "agents/MarkdownLogger/MarkdownLogger.py", none, []⟩,
        ["HumorAgent"]) :=
  (markdownLogger_extraction
      [⟨"MarkdownLogger", some "agents/MarkdownLogger/MarkdownLogger.py", none, []⟩]
      ["HumorAgent", "MarkdownLogger"]).1 ⟨by decide, by decide⟩

/-! ### Main-loop machinery -/

theorem execStage_of_skipped (env : Env) (agents : List AgentSpec)
    (verbose : Bool) (n : String) (cur : String)
    (h : isSkippedStage agents n = true) :
    execStage env agents verbose n cur = StageOutcome.skipped := by
  unfold isSkippedStage at h
  unfold execStage
  cases hl : lookupAgent agents n with
  | none => simp only [hl]
  | some s =>
    simp only [hl] at h ⊢
    cases hp : s.path with
    | none => simp only [hp]
    | some p =>
      simp only [hp] at h ⊢
      simp [h]

theorem execStage_of_succeeds (env : Env) (agents : List AgentSpec)
    (verbose : Bool) (n : String) (cur : String)
    (h : succeedsStage env agents n) :
    ∃ out, execStage env agents verbose n cur = StageOutcome.success out := by
  obtain ⟨spec, p, c, hl, hp, hne, hload, hrun⟩ := h
  have hpb : (p == "") = false := by
    simp [hne]
  obtain ⟨out, hout⟩ := hrun (bindParameters c.sig spec.params cur
    (resolveModel spec.gpt_version env.envModelName).1 (if verbose then 2 else 0))
  refine ⟨out, ?_⟩
  unfold execStage
  simp only [hl, hp, hpb, Bool.false_eq_true, if_false, hload]
  rw [hout]

theorem isSkippedStage_eq_false_of_succeeds (env : Env) (agents : List AgentSpec)
    (n : String) (h : succeedsStage env agents n) :
    isSkippedStage agents n = false := by
  obtain ⟨spec, p, c, hl, hp, hne, _, _⟩ := h
  unfold isSkippedStage
  simp only [hl, hp]
  simp [hne]

theorem runMainLoop_append (env : Env) (agents : List AgentSpec) (verbose : Bool)
    (pre rest : List String) : ∀ (cur : String) (hist : List StepRecord),
    runMainLoop env agents verbose (pre ++ rest) cur hist =
      match runMainLoop env agents verbose pre cur hist with
      | RunOutcome.finished c h => runMainLoop env agents verbose rest c h
      | RunOutcome.halted e h => RunOutcome.halted e h := by
  induction pre with
  | nil => intro cur hist; rfl
  | cons name pre' ih =>
    intro cur hist
    simp only [List.cons_append, runMainLoop]
    cases hs : execStage env agents verbose name cur with
    | skipped => exact ih cur hist
    | success out => exact ih out (hist ++ [⟨name, out⟩])
    | halted e => rfl

theorem runMainLoop_all_ok (env : Env) (agents : List AgentSpec) (verbose : Bool) :
    ∀ (stages : List String) (cur : String) (hist : List StepRecord),
    (∀ n ∈ stages, isSkippedStage agents n = true ∨ succeedsStage env agents n) →
    ∃ ft h, runMainLoop env agents verbose stages cur hist = RunOutcome.finished ft h ∧
      h.map (fun r => r.agent_name) =
        hist.map (fun r => r.agent_name) ++
          stages.filter (fun n => !(isSkippedStage agents n)) := by
  intro stages
  induction stages with
  | nil =>
    intro cur hist _
    exact ⟨cur, hist, rfl, by simp⟩
  | cons n rest ih =>
    intro cur hist hall
    rcases hall n (List.mem_cons_self n rest) with hsk | hsu
    · simp only [runMainLoop, execStage_of_skipped env agents verbose n cur hsk]
      obtain ⟨ft, h, heq, hmap⟩ :=
        ih cur hist (fun m hm => hall m (List.mem_cons_of_mem n hm))
      refine ⟨ft, h, heq, ?_⟩
      rw [hmap, List.filter_cons]
      simp [hsk]
    · obtain ⟨out, hexec⟩ := execStage_of_succeeds env agents verbose n cur hsu
      simp only [runMainLoop, hexec]
      obtain ⟨ft, h, heq, hmap⟩ :=
        ih out (hist ++ [⟨n, out⟩]) (fun m hm => hall m (List.mem_cons_of_mem n hm))
      refine ⟨ft, h, heq, ?_⟩
      rw [hmap, List.filter_cons]
      have hns := isSkippedStage_eq_false_of_succeeds env agents n hsu
      simp [hns]

/-! ### C1: structural stage failure halts the run -/

/-- C1: if, after a prefix of stages that the loop worked through
successfully, the next stage fails structurally (load failure or raised
exception), the whole run halts immediately: the stages after it are never
consulted, the run history is exactly the prefix's records, the error is
surfaced in the outcome, and the logger section is never reached. -/
theorem pipeline_halts_on_stage_failure (env : Env) (agents : List AgentSpec)
    (order : List String) (verbose : Bool) (input : String)
    (pre post : List String) (bad : String) (cur : String)
    (h : List StepRecord) (err : PipelineError)
    (hsplit : (splitLogger agents order).2 = pre ++ bad :: post)
    (hpre : runMainLoop env agents verbose pre input [] = RunOutcome.finished cur h)
    (hbad : execStage env agents verbose bad cur = StageOutcome.halted err) :
    runPipeline env agents order verbose input =
      ⟨RunOutcome.halted err h, LoggerOutcome.skippedHalted⟩ := by
  have hloop : runMainLoop env agents verbose (splitLogger agents order).2 input [] =
      RunOutcome.halted err h := by
    rw [hsplit, runMainLoop_append, hpre]
    show runMainLoop env agents verbose (bad :: post) cur h = RunOutcome.halted err h
    simp only [runMainLoop]
    rw [hbad]
  unfold runPipeline
  rw [hloop]

/-- Witness for C1: with agent `A` succeeding and agent `B`'s file
missing, a three-stage run halts after `A` with a one-record history and a
surfaced `FileNotFoundError`, stage `C` never running. -/
theorem pipeline_halts_on_stage_failure_witness :
    runPipeline wEnv [specA, specBad] ["A", "Bad", "C"] false "hello" =
      ⟨RunOutcome.halted (PipelineError.loadError LoadError.fileNotFound)
          [⟨"A", "OUT-A"⟩],
        LoggerOutcome.skippedHalted⟩ :=
  pipeline_halts_on_stage_failure wEnv [specA, specBad] ["A", "Bad", "C"] false
    "hello" ["A"] ["C"] "Bad" "OUT-A" [⟨"A", "OUT-A"⟩]
    (PipelineError.loadError LoadError.fileNotFound) rfl rfl rfl

theorem length_filter_split (l : List String) (p : String → Bool) :
    (l.filter (fun x => !(p x))).length + (l.filter p).length = l.length := by
  induction l with
  | nil => rfl
  | cons a t ih =>
    cases h : p a <;> simp [List.filter_cons, h] <;> omega

/-! ### C7: absent or pathless stages are no-ops -/

/-- C7: a main-stage name that is absent from the agent map or whose path
is unset is a no-op: the loop continues with `current_text` and the
history unchanged, and in a run where every other stage succeeds the
pipeline finishes (never halts) with exactly one record fewer per skipped
name. -/
theorem skipped_stage_is_noop (env : Env) (agents : List AgentSpec)
    (verbose : Bool) (stages : List String) (input : String) :
    (∀ name rest cur hist, isSkippedStage agents name = true →
        runMainLoop env agents verbose (name :: rest) cur hist =
          runMainLoop env agents verbose rest cur hist) ∧
    ((∀ n ∈ stages, isSkippedStage agents n = true ∨ succeedsStage env agents n) →
      ∃ ft h, runMainLoop env agents verbose stages input [] =
          RunOutcome.finished ft h ∧
        h.length + (stages.filter (fun n => isSkippedStage agents n)).length =
          stages.length) := by
  constructor
  · intro name rest cur hist hsk
    simp only [runMainLoop, execStage_of_skipped env agents verbose name cur hsk]
  · intro hall
    obtain ⟨ft, h, heq, hmap⟩ := runMainLoop_all_ok env agents verbose stages input [] hall
    refine ⟨ft, h, heq, ?_⟩
    have hlen : h.length = (stages.filter (fun n => !(isSkippedStage agents n))).length := by
      have hlm := congrArg List.length hmap
      rw [List.length_map] at hlm
      simpa using hlm
    rw [hlen]
    exact length_filter_split stages (fun n => isSkippedStage agents n)

/-- Witness for C7: a three-name order whose middle name `X` is unknown
runs to completion with a two-record history. -/
theorem skipped_stage_is_noop_witness :
    ∃ ft h, runMainLoop wEnv [specA, specB] false ["A", "X", "B"] "hi" [] =
        RunOutcome.finished ft h ∧
      h.length + ((["A", "X", "B"].filter
          (fun n => isSkippedStage [specA, specB] n)).length) =
        (["A", "X", "B"] : List String).length :=
  (skipped_stage_is_noop wEnv [specA, specB] false ["A", "X", "B"] "hi").2
    (by
      intro n hn
      simp only [List.mem_cons, List.not_mem_nil, or_false] at hn
      rcases hn with rfl | rfl | rfl
      · exact Or.inr ⟨specA, "a.py", okCallable "OUT-A", rfl, rfl, by decide,
          rfl, fun args => ⟨"OUT-A", rfl⟩⟩
      · exact Or.inl (by decide)
      · exact Or.inr ⟨specB, "b.py", okCallable "OUT-B", rfl, rfl, by decide,
          rfl, fun args => ⟨"OUT-B", rfl⟩⟩)

theorem invokeLogger_not_ran_of_inspect_unbound (env : Env) (d : AgentSpec)
    (verbose : Bool) (input : String) (h : List StepRecord)
    (c : LoggerCall) (s : Except String String) :
    invokeLogger env d verbose input h false ≠ LoggerOutcome.ran c s := by
  intro hr
  unfold invokeLogger at hr
  cases hp : d.path with
  | none => simp [hp] at hr
  | some p =>
    simp only [hp] at hr
    by_cases hpe : (p == "") = true
    · rw [if_pos hpe] at hr
      exact LoggerOutcome.noConfusion hr
    · rw [if_neg hpe] at hr
      cases hl : env.loadLogger p with
      | error m => simp [hl] at hr
      | ok lm =>
        simp only [hl] at hr
        by_cases hf : lm.hasLogFunc = true
        · rw [if_pos hf] at hr
          simp at hr
        · rw [if_neg hf] at hr
          exact LoggerOutcome.noConfusion hr

theorem invokeLogger_ran_steps (env : Env) (d : AgentSpec) (verbose : Bool)
    (input : String) (h : List StepRecord) (b : Bool)
    (c : LoggerCall) (s : Except String String)
    (hr : invokeLogger env d verbose input h b = LoggerOutcome.ran c s) :
    c.pipeline_steps = h := by
  unfold invokeLogger at hr
  cases hp : d.path with
  | none => simp [hp] at hr
  | some p =>
    simp only [hp] at hr
    by_cases hpe : (p == "") = true
    · rw [if_pos hpe] at hr
      exact LoggerOutcome.noConfusion hr
    · rw [if_neg hpe] at hr
      cases hl : env.loadLogger p with
      | error m => simp [hl] at hr
      | ok lm =>
        simp only [hl] at hr
        by_cases hf : lm.hasLogFunc = true
        · rw [if_pos hf] at hr
          by_cases hb : b = true
          · rw [if_pos hb] at hr
            simp only [LoggerOutcome.ran.injEq] at hr
            rw [← hr.1]
          · rw [if_neg hb] at hr
            exact LoggerOutcome.noConfusion hr
        · rw [if_neg hf] at hr
          exact LoggerOutcome.noConfusion hr

/-! ### C4: history lengths around the logger -/

/-- C4: with every name of the execution order present, pathed, loadable
and succeeding — when `MarkdownLogger` is last, the main loop finishes and
the logger section runs on a history of exactly `len(order) - 1` records
(with the loop-local `inspect` bound iff that history is nonempty; when it
is empty the section fails at line 490 and nothing is passed), so any
history actually handed to `log_run_to_markdown` is exactly that
`len(order) - 1`-record history; when `MarkdownLogger` occurs but is not
last, the run finishes with exactly `len(order)` records, one of them
produced by `MarkdownLogger` run as an ordinary stage. -/
theorem logger_history_length (env : Env) (agents : List AgentSpec)
    (order : List String) (verbose : Bool) (input : String)
    (hsucc : ∀ n ∈ order, succeedsStage env agents n) :
    (((lookupAgent agents "MarkdownLogger").isSome ∧
        order.getLast? = some "MarkdownLogger") →
      ∃ d ft h, lookupAgent agents "MarkdownLogger" = some d ∧
        (runPipeline env agents order verbose input).outcome =
          RunOutcome.finished ft h ∧
        h.length = order.length - 1 ∧
        (runPipeline env agents order verbose input).loggerOutcome =
          invokeLogger env d verbose input h (!h.isEmpty) ∧
        (∀ c s, (runPipeline env agents order verbose input).loggerOutcome =
            LoggerOutcome.ran c s → c.pipeline_steps = h)) ∧
    ((order.contains "MarkdownLogger" ∧
        order.getLast? ≠ some "MarkdownLogger") →
      ∃ ft h, (runPipeline env agents order verbose input).outcome =
          RunOutcome.finished ft h ∧
        h.length = order.length ∧
        "MarkdownLogger" ∈ h.map (fun r => r.agent_name)) := by
  constructor
  · rintro ⟨hsome, hlast⟩
    have hsp := splitLogger_eq_of_last agents order hsome hlast
    obtain ⟨d, hd⟩ := Option.isSome_iff_exists.mp hsome
    have hall : ∀ n ∈ order.dropLast,
        isSkippedStage agents n = true ∨ succeedsStage env agents n :=
      fun n hn => Or.inr (hsucc n (List.dropLast_subset order hn))
    obtain ⟨ft, h, heq, hmap⟩ :=
      runMainLoop_all_ok env agents verbose order.dropLast input [] hall
    have hfilter : (order.dropLast).filter (fun n => !(isSkippedStage agents n)) =
        order.dropLast := by
      apply List.filter_eq_self.mpr
      intro a ha
      simp [isSkippedStage_eq_false_of_succeeds env agents a
        (hsucc a (List.dropLast_subset order ha))]
    have hlen : h.length = order.length - 1 := by
      have hlm := congrArg List.length hmap
      rw [List.length_map] at hlm
      simp only [List.map_nil, List.nil_append, hfilter] at hlm
      rw [hlm, List.length_dropLast]
    have hloop : runMainLoop env agents verbose (splitLogger agents order).2
        input [] = RunOutcome.finished ft h := by
      rw [hsp]
      exact heq
    refine ⟨d, ft, h, hd, ?_, hlen, ?_, ?_⟩
    · rw [runPipeline_outcome_eq, hloop]
    · rw [runPipeline_loggerOutcome_eq, hloop]
      simp only [hsp, hd]
    · intro c s hr
      rw [runPipeline_loggerOutcome_eq, hloop] at hr
      simp only [hsp, hd] at hr
      exact invokeLogger_ran_steps env d verbose input h _ c s hr
  · rintro ⟨hcont, hlast⟩
    have hsp := splitLogger_eq_of_not_last agents order (fun hc => hlast hc.2)
    have hall : ∀ n ∈ order,
        isSkippedStage agents n = true ∨ succeedsStage env agents n :=
      fun n hn => Or.inr (hsucc n hn)
    obtain ⟨ft, h, heq, hmap⟩ :=
      runMainLoop_all_ok env agents verbose order input [] hall
    have hfilter : order.filter (fun n => !(isSkippedStage agents n)) = order := by
      apply List.filter_eq_self.mpr
      intro a ha
      simp [isSkippedStage_eq_false_of_succeeds env agents a (hsucc a ha)]
    have hmap' : h.map (fun r => r.agent_name) = order := by
      simpa [hfilter] using hmap
    have hloop : runMainLoop env agents verbose (splitLogger agents order).2
        input [] = RunOutcome.finished ft h := by
      rw [hsp]
      exact heq
    refine ⟨ft, h, ?_, ?_, ?_⟩
    · rw [runPipeline_outcome_eq, hloop]
    · have := congrArg List.length hmap'
      rw [List.length_map] at this
      exact this
    · rw [hmap']
      exact List.mem_of_elem_eq_true hcont

/-- Witness for C4: two stages plus a terminal logger give the logger a
one-record history. -/
theorem logger_history_length_witness :
    ∃ d ft h, lookupAgent [specA, specML] "MarkdownLogger" = some d ∧
      (runPipeline wEnv [specA, specML] ["A", "MarkdownLogger"] false "hi").outcome =
        RunOutcome.finished ft h ∧
      h.length = (["A", "MarkdownLogger"] : List String).length - 1 ∧
      (runPipeline wEnv [specA, specML] ["A", "MarkdownLogger"] false "hi").loggerOutcome =
        invokeLogger wEnv d false "hi" h (!h.isEmpty) ∧
      (∀ c s, (runPipeline wEnv [specA, specML] ["A", "MarkdownLogger"] false
            "hi").loggerOutcome = LoggerOutcome.ran c s →
        c.pipeline_steps = h) :=
  (logger_history_length wEnv [specA, specML] ["A", "MarkdownLogger"] false "hi"
    (by
      intro n hn
      simp only [List.mem_cons, List.not_mem_nil, or_false] at hn
      rcases hn with rfl | rfl
      · exact ⟨specA, "a.py", okCallable "OUT-A", rfl, rfl, by decide,
          rfl, fun args => ⟨"OUT-A", rfl⟩⟩
      · exact ⟨specML, "ml.py", okCallable "OUT-ML", rfl, rfl, by decide,
          rfl, fun args => ⟨"OUT-ML", rfl⟩⟩)).1
    ⟨by decide, by decide⟩

/-! ### C8: append-only history and the currentText invariant -/

theorem runMainLoop_invariant (env : Env) (agents : List AgentSpec)
    (verbose : Bool) :
    ∀ (stages : List String) (cur input : String) (hist : List StepRecord),
    cur = lastOutputOr hist input →
    (∀ ft h, runMainLoop env agents verbose stages cur hist =
        RunOutcome.finished ft h →
        (∃ tail, h = hist ++ tail) ∧ ft = lastOutputOr h input) ∧
    (∀ err h, runMainLoop env agents verbose stages cur hist =
        RunOutcome.halted err h →
        ∃ tail, h = hist ++ tail) := by
  intro stages
  induction stages with
  | nil =>
    intro cur input hist hinv
    constructor
    · intro ft h heq
      simp only [runMainLoop] at heq
      cases heq
      exact ⟨⟨[], by simp⟩, hinv⟩
    · intro err h heq
      simp only [runMainLoop] at heq
      cases heq
  | cons n rest ih =>
    intro cur input hist hinv
    simp only [runMainLoop]
    cases hs : execStage env agents verbose n cur with
    | skipped => exact ih cur input hist hinv
    | success out =>
      have hinv' : out = lastOutputOr (hist ++ [⟨n, out⟩]) input := by
        simp [lastOutputOr, List.getLast?_concat]
      have hrec := ih out input (hist ++ [⟨n, out⟩]) hinv'
      constructor
      · intro ft h heq
        obtain ⟨⟨tail, htail⟩, hft⟩ := hrec.1 ft h heq
        refine ⟨⟨⟨n, out⟩ :: tail, ?_⟩, hft⟩
        rw [htail]
        simp
      · intro err h heq
        obtain ⟨tail, htail⟩ := hrec.2 err h heq
        refine ⟨⟨n, out⟩ :: tail, ?_⟩
        rw [htail]
        simp
    | halted e =>
      constructor
      · intro ft h heq
        cases heq
      · intro err h heq
        cases heq
        exact ⟨[], by simp⟩

/-- C8: the history is append-only — each successful stage appends exactly
the one record `{agent_name, output_text}` and hands the loop its output
as the new `current_text` — and whenever the loop starts from the
invariant "`current_text` is the last appended output, or the initial
input when the history is empty", every outcome's history extends the
starting history, and a finished run's final text is again the last
output (or the untouched initial input). -/
theorem history_append_only (env : Env) (agents : List AgentSpec)
    (verbose : Bool) (stages : List String) (input cur : String)
    (hist : List StepRecord) (hinv : cur = lastOutputOr hist input) :
    (∀ name rest out cur0 hist0,
        execStage env agents verbose name cur0 = StageOutcome.success out →
        runMainLoop env agents verbose (name :: rest) cur0 hist0 =
          runMainLoop env agents verbose rest out (hist0 ++ [⟨name, out⟩])) ∧
    (∀ ft h, runMainLoop env agents verbose stages cur hist =
        RunOutcome.finished ft h →
        (∃ tail, h = hist ++ tail) ∧ ft = lastOutputOr h input) ∧
    (∀ err h, runMainLoop env agents verbose stages cur hist =
        RunOutcome.halted err h →
        ∃ tail, h = hist ++ tail) := by
  refine ⟨?_, (runMainLoop_invariant env agents verbose stages cur input hist hinv).1,
    (runMainLoop_invariant env agents verbose stages cur input hist hinv).2⟩
  intro name rest out cur0 hist0 hstep
  simp only [runMainLoop, hstep]

/-- Witness for C8: a one-stage run extends the empty history by exactly
one record whose output is the final text. -/
theorem history_append_only_witness :
    (∃ tail, ([⟨"A", "OUT-A"⟩] : List StepRecord) = [] ++ tail) ∧
      "OUT-A" = lastOutputOr [⟨"A", "OUT-A"⟩] "hi" :=
  (history_append_only wEnv [specA] false ["A"] "hi" "hi" [] rfl).2.1
    "OUT-A" [⟨"A", "OUT-A"⟩] rfl

/-! ### C3: the logger does not run after a halt (corrected) -/

/-- Counterexample to C3 as stated: `MarkdownLogger` is configured (in the
agent map and last in the order), the main loop halts on a structural
failure of stage `Bad` and returns — yet the logger section is skipped
entirely: the halted-but-returned run produces no log. -/
theorem logger_skipped_on_halt_counterexample :
    (splitLogger [specBad, specML] ["Bad", "MarkdownLogger"]).1 = some specML ∧
    runPipeline wEnv [specBad, specML] ["Bad", "MarkdownLogger"] false "hi" =
      ⟨RunOutcome.halted (PipelineError.loadError LoadError.fileNotFound) [],
        LoggerOutcome.skippedHalted⟩ :=
  ⟨rfl, rfl⟩

/-- C3 (amended): the logger section runs only when the main loop finished
all its stages; a structural halt returns from the run before the logger
section, so a halted run produces no log — when the loop does finish and a
logger was extracted, the logger section runs with the accumulated history
and the loop-local `inspect` bound iff that history is nonempty; in
particular a finished run in which every main stage was skipped reaches
the logger section but fails on the unbound `inspect` at line 490, so the
logger contract is still never invoked. -/
theorem logger_runs_only_after_finished (env : Env) (agents : List AgentSpec)
    (order : List String) (verbose : Bool) (input : String) :
    (∀ err h, runMainLoop env agents verbose (splitLogger agents order).2
        input [] = RunOutcome.halted err h →
        (runPipeline env agents order verbose input).loggerOutcome =
          LoggerOutcome.skippedHalted) ∧
    (∀ d ft h, (splitLogger agents order).1 = some d →
        runMainLoop env agents verbose (splitLogger agents order).2
          input [] = RunOutcome.finished ft h →
        (runPipeline env agents order verbose input).loggerOutcome =
          invokeLogger env d verbose input h (!h.isEmpty)) ∧
    (∀ d ft, (splitLogger agents order).1 = some d →
        runMainLoop env agents verbose (splitLogger agents order).2
          input [] = RunOutcome.finished ft [] →
        ∀ c s, (runPipeline env agents order verbose input).loggerOutcome ≠
          LoggerOutcome.ran c s) := by
  refine ⟨?_, ?_, ?_⟩
  · intro err h hloop
    rw [runPipeline_loggerOutcome_eq, hloop]
  · intro d ft h hd hloop
    rw [runPipeline_loggerOutcome_eq, hloop]
    simp only [hd]
  · intro d ft hd hloop c s
    rw [runPipeline_loggerOutcome_eq, hloop]
    simp only [hd]
    exact invokeLogger_not_ran_of_inspect_unbound env d verbose input [] c s

/-- Witness for C3 (amended): after a fully successful main loop the
extracted logger is invoked with the run history. -/
theorem logger_runs_only_after_finished_witness :
    (runPipeline wEnv [specA, specML] ["A", "MarkdownLogger"] true "hi").loggerOutcome =
      invokeLogger wEnv specML true "hi" [⟨"A", "OUT-A"⟩] true :=
  (logger_runs_only_after_finished wEnv [specA, specML]
      ["A", "MarkdownLogger"] true "hi").2.1 specML "OUT-A" [⟨"A", "OUT-A"⟩] rfl rfl

/-! ### C9: the logger is keyed to the literal name "MarkdownLogger" -/

/-- C9: extraction of a terminal logger is decided by name equality with
the literal `"MarkdownLogger"` before the loop runs — whatever spec is
extracted is the one registered under that name with the order ending in
that name — and any invocation of the logger contract (history-in,
status-out) goes to that spec; a stage under any other name is never
extracted and never receives the run history, whatever entry points its
module exposes. -/
theorem logger_requires_literal_name (env : Env) (agents : List AgentSpec)
    (order : List String) (verbose : Bool) (input : String) :
    (∀ d, (splitLogger agents order).1 = some d →
        order.getLast? = some "MarkdownLogger" ∧
        lookupAgent agents "MarkdownLogger" = some d) ∧
    (∀ c s, (runPipeline env agents order verbose input).loggerOutcome =
        LoggerOutcome.ran c s →
        ∃ d, lookupAgent agents "MarkdownLogger" = some d ∧
          (splitLogger agents order).1 = some d) := by
  constructor
  · intro d hd
    exact splitLogger_fst_eq agents order d hd
  · intro c s hran
    rw [runPipeline_loggerOutcome_eq] at hran
    cases hml : runMainLoop env agents verbose (splitLogger agents order).2
        input [] with
    | halted err h =>
      rw [hml] at hran
      simp at hran
    | finished ft h =>
      rw [hml] at hran
      cases hsp : (splitLogger agents order).1 with
      | none =>
        rw [hsp] at hran
        simp at hran
      | some d =>
        rw [hsp] at hran
        exact ⟨d, (splitLogger_fst_eq agents order d hsp).2, rfl⟩

/-- Witness for C9: the extracted spec of a concrete run is exactly the
one registered under the literal name. -/
theorem logger_requires_literal_name_witness :
    (["A", "MarkdownLogger"] : List String).getLast? = some "MarkdownLogger" ∧
      lookupAgent [specA, specML] "MarkdownLogger" = some specML :=
  (logger_requires_literal_name wEnv [specA, specML] ["A", "MarkdownLogger"]
      false "hi").1 specML rfl

/-! ### C5: parameter binding respects the callable's signature -/

theorem beq_false_of_ne {a b : String} (h : a ≠ b) : (a == b) = false := by
  cases hpe : (a == b) with
  | false => rfl
  | true => exact absurd (by simpa using hpe) h

theorem lookupParam_nil (p : String) : lookupParam [] p = none := rfl

theorem lookupParam_cons (k : String) (w : Value)
    (rest : List (String × Value)) (p : String) :
    lookupParam ((k, w) :: rest) p =
      if (k == p) then some w else lookupParam rest p := by
  unfold lookupParam
  rw [List.find?_cons]
  cases h : (k == p) <;> simp [h]

theorem lookupParam_append (a b : List (String × Value)) (p : String) :
    lookupParam (a ++ b) p = (lookupParam a p).or (lookupParam b p) := by
  unfold lookupParam
  rw [List.find?_append]
  cases h : a.find? (fun kv => kv.1 == p) <;> simp [h]

theorem lookupParam_eq_none_of_keys (ps : List (String × Value)) (p : String)
    (h : ∀ kv ∈ ps, (kv.1 == p) = false) : lookupParam ps p = none := by
  unfold lookupParam
  rw [List.find?_eq_none.mpr]
  · rfl
  · intro kv hkv
    simp [h kv hkv]

theorem lookupParam_filter_none (sig : Sig) (conf : List (String × Value))
    (p : String) (h : (!(sig.memB p) && !(isReserved p)) = false) :
    lookupParam (conf.filter (fun kv => !(sig.memB kv.1) && !(isReserved kv.1)))
      p = none := by
  apply lookupParam_eq_none_of_keys
  intro kv hkv
  have hq := (List.mem_filter.mp hkv).2
  cases hpe : (kv.1 == p) with
  | false => rfl
  | true =>
    have heq : kv.1 = p := by simpa using hpe
    rw [heq, h] at hq
    exact Bool.noConfusion hq

theorem acceptedHead_lookup_none_of_ne (sig : Sig) (conf : List (String × Value))
    (pn : String) (isVk : Bool) (p : String)
    (hne : (pn == p) = false)
    (hfilter : (!(sig.memB p) && !(isReserved p)) = false) :
    lookupParam (acceptedHead sig conf pn isVk) p = none := by
  unfold acceptedHead
  cases hc : lookupParam conf pn with
  | some v =>
    cases hr : isReserved pn with
    | false => simp [lookupParam_cons, lookupParam_nil, hne]
    | true =>
      cases isVk <;>
        simp [lookupParam_filter_none sig conf p hfilter, lookupParam_nil]
  | none =>
    cases isVk <;>
      simp [lookupParam_filter_none sig conf p hfilter, lookupParam_nil]

theorem acceptedHead_lookup_none_of_reserved (sig : Sig)
    (conf : List (String × Value)) (pn : String) (isVk : Bool) (p : String)
    (hres : isReserved p = true) :
    lookupParam (acceptedHead sig conf pn isVk) p = none := by
  have hfilter : (!(sig.memB p) && !(isReserved p)) = false := by
    rw [hres]
    simp
  unfold acceptedHead
  cases hc : lookupParam conf pn with
  | some v =>
    cases hr : isReserved pn with
    | false =>
      have hne : (pn == p) = false := by
        apply beq_false_of_ne
        intro heq
        rw [heq, hres] at hr
        exact Bool.noConfusion hr
      simp [lookupParam_cons, lookupParam_nil, hne]
    | true =>
      cases isVk <;>
        simp [lookupParam_filter_none sig conf p hfilter, lookupParam_nil]
  | none =>
    cases isVk <;>
      simp [lookupParam_filter_none sig conf p hfilter, lookupParam_nil]

theorem acceptedHead_lookup_self (sig : Sig) (conf : List (String × Value))
    (p : String) (isVk : Bool) (v : Value)
    (hres : isReserved p = false) (hconf : lookupParam conf p = some v) :
    lookupParam (acceptedHead sig conf p isVk) p = some v := by
  unfold acceptedHead
  simp only [hconf, hres]
  simp [lookupParam_cons]

theorem acceptedHead_lookup_some (sig : Sig) (conf : List (String × Value))
    (pn : String) (isVk : Bool) (p : String) (v : Value)
    (h : lookupParam (acceptedHead sig conf pn isVk) p = some v) :
    pn = p ∨ isVk = true := by
  unfold acceptedHead at h
  cases hc : lookupParam conf pn with
  | some v' =>
    rw [hc] at h
    cases hr : isReserved pn with
    | false =>
      rw [hr] at h
      rw [lookupParam_cons] at h
      cases hpe : (pn == p) with
      | true => exact Or.inl (by simpa using hpe)
      | false =>
        rw [hpe] at h
        simp [lookupParam] at h
    | true =>
      rw [hr] at h
      cases isVk with
      | true => exact Or.inr rfl
      | false => simp [lookupParam] at h
  | none =>
    rw [hc] at h
    cases isVk with
    | true => exact Or.inr rfl
    | false => simp [lookupParam] at h

theorem acceptedLoop_lookup_reserved (sig : Sig) (conf : List (String × Value))
    (p : String) (hres : isReserved p = true) :
    ∀ ℓ : List (String × Bool),
    lookupParam (acceptedLoop sig conf ℓ) p = none := by
  intro ℓ
  induction ℓ with
  | nil => rfl
  | cons hd rest ih =>
    obtain ⟨pn, isVk⟩ := hd
    simp only [acceptedLoop]
    rw [lookupParam_append,
      acceptedHead_lookup_none_of_reserved sig conf pn isVk p hres, ih]
    rfl

theorem acceptedLoop_lookup_some (sig : Sig) (conf : List (String × Value))
    (p : String) (v : Value) :
    ∀ ℓ : List (String × Bool),
    lookupParam (acceptedLoop sig conf ℓ) p = some v →
    (∃ b, (p, b) ∈ ℓ) ∨ (∃ n, (n, true) ∈ ℓ) := by
  intro ℓ
  induction ℓ with
  | nil =>
    intro h
    simp [acceptedLoop, lookupParam] at h
  | cons hd rest ih =>
    obtain ⟨pn, isVk⟩ := hd
    intro h
    simp only [acceptedLoop] at h
    rw [lookupParam_append] at h
    cases hh : lookupParam (acceptedHead sig conf pn isVk) p with
    | some w =>
      rcases acceptedHead_lookup_some sig conf pn isVk p w hh with heq | hvk
      · subst heq
        exact Or.inl ⟨isVk, List.mem_cons_self _ _⟩
      · subst hvk
        exact Or.inr ⟨pn, List.mem_cons_self _ _⟩
    | none =>
      rw [hh, Option.none_or] at h
      rcases ih h with ⟨b, hb⟩ | ⟨n, hn⟩
      · exact Or.inl ⟨b, List.mem_cons_of_mem _ hb⟩
      · exact Or.inr ⟨n, List.mem_cons_of_mem _ hn⟩

theorem acceptedLoop_lookup_of_mem (sig : Sig) (conf : List (String × Value))
    (p : String) (v : Value)
    (hres : isReserved p = false) (hmem : sig.memB p = true)
    (hconf : lookupParam conf p = some v) :
    ∀ ℓ : List (String × Bool), (∃ b, (p, b) ∈ ℓ) →
    lookupParam (acceptedLoop sig conf ℓ) p = some v := by
  intro ℓ
  induction ℓ with
  | nil =>
    rintro ⟨b, hb⟩
    simp at hb
  | cons hd rest ih =>
    obtain ⟨pn, isVk⟩ := hd
    rintro ⟨b, hb⟩
    cases hpe : (pn == p) with
    | true =>
      have heq : pn = p := by simpa using hpe
      subst heq
      simp only [acceptedLoop]
      rw [lookupParam_append,
        acceptedHead_lookup_self sig conf pn isVk v hres hconf]
      rfl
    | false =>
      have hbrest : (p, b) ∈ rest := by
        rcases List.mem_cons.mp hb with heq | h2
        · exfalso
          have hpn : pn = p := (congrArg Prod.fst heq).symm
          rw [hpn] at hpe
          simp at hpe
        · exact h2
      simp only [acceptedLoop]
      rw [lookupParam_append,
        acceptedHead_lookup_none_of_ne sig conf pn isVk p hpe
          (by rw [hmem]; simp),
        Option.none_or]
      exact ih ⟨b, hbrest⟩

theorem paramList_mem_of_memB (sig : Sig) (p : String)
    (h : sig.memB p = true) : ∃ b, (p, b) ∈ sig.paramList := by
  unfold Sig.memB at h
  unfold Sig.paramList
  rw [Bool.or_eq_true] at h
  rcases h with h | h
  · have hp : p ∈ sig.fixed := by simpa using h
    exact ⟨false, List.mem_append_left _ (List.mem_map.mpr ⟨p, hp, rfl⟩)⟩
  · have hv : sig.varKeyword = some p := by simpa using h
    rw [hv]
    exact ⟨true, List.mem_append_right _ (by simp)⟩

theorem memB_of_paramList_mem (sig : Sig) (p : String) (b : Bool)
    (h : (p, b) ∈ sig.paramList) : sig.memB p = true := by
  unfold Sig.paramList at h
  unfold Sig.memB
  rw [Bool.or_eq_true]
  rcases List.mem_append.mp h with h | h
  · obtain ⟨n, hn, heq⟩ := List.mem_map.mp h
    have hnp : n = p := congrArg Prod.fst heq
    left
    subst hnp
    simpa using hn
  · cases hv : sig.varKeyword with
    | none =>
      rw [hv] at h
      simp at h
    | some n =>
      rw [hv] at h
      simp at h
      right
      simp [h.1]

theorem varKeyword_isSome_of_paramList (sig : Sig) (n : String)
    (h : (n, true) ∈ sig.paramList) : sig.varKeyword.isSome := by
  unfold Sig.paramList at h
  rcases List.mem_append.mp h with h | h
  · obtain ⟨m, hm, heq⟩ := List.mem_map.mp h
    have := congrArg Prod.snd heq
    simp at this
  · cases hv : sig.varKeyword with
    | none =>
      rw [hv] at h
      simp at h
    | some m => simp

theorem lookupParam_bindParameters (sig : Sig) (conf : List (String × Value))
    (text : String) (mn : Option String) (vb : Nat) (p : String)
    (hres : isReserved p = false) :
    lookupParam (bindParameters sig conf text mn vb) p =
      lookupParam (acceptedParams sig conf) p := by
  have h1 : (("text" : String) == p) = false := by
    apply beq_false_of_ne
    intro he
    rw [← he] at hres
    exact absurd hres (by decide)
  have h2 : (("model_name" : String) == p) = false := by
    apply beq_false_of_ne
    intro he
    rw [← he] at hres
    exact absurd hres (by decide)
  have h3 : (("verbosity_level" : String) == p) = false := by
    apply beq_false_of_ne
    intro he
    rw [← he] at hres
    exact absurd hres (by decide)
  unfold bindParameters
  by_cases hm : sig.memB "model_name" = true <;>
    by_cases hv : sig.memB "verbosity_level" = true <;>
    cases mn <;>
    simp [hm, hv, lookupParam_append, lookupParam_cons, h1, h2, h3]

/-- C5: the argument set an agent receives is determined by its declared
signature — `model_name` appears only when declared (a callable without
that parameter never receives the resolved model, whatever the
configuration says); `verbosity_level` appears only when declared; a
configured param whose name matches a declared non-reserved parameter is
forwarded with its configured value; and a configured param matching no
declared parameter is forwarded only when the callable declares a `**`
keyword capture, and is dropped when it does not. -/
theorem bindParameters_respects_signature (sig : Sig)
    (configured : List (String × Value)) (text : String)
    (modelName : Option String) (verbosity : Nat) :
    (sig.memB "model_name" = false →
      lookupParam (bindParameters sig configured text modelName verbosity)
        "model_name" = none) ∧
    (sig.memB "verbosity_level" = false →
      lookupParam (bindParameters sig configured text modelName verbosity)
        "verbosity_level" = none) ∧
    (∀ p v, isReserved p = false → sig.memB p = true →
      lookupParam configured p = some v →
      lookupParam (bindParameters sig configured text modelName verbosity) p =
        some v) ∧
    (∀ p, isReserved p = false → sig.memB p = false → sig.varKeyword = none →
      lookupParam (bindParameters sig configured text modelName verbosity) p =
        none) ∧
    (∀ p v, isReserved p = false → sig.memB p = false →
      lookupParam (bindParameters sig configured text modelName verbosity) p =
        some v →
      sig.varKeyword.isSome) := by
  have hDm := acceptedLoop_lookup_reserved sig configured "model_name"
    (by decide) sig.paramList
  have hDv := acceptedLoop_lookup_reserved sig configured "verbosity_level"
    (by decide) sig.paramList
  refine ⟨?_, ?_, ?_, ?_, ?_⟩
  · intro hnm
    unfold bindParameters
    by_cases hv : sig.memB "verbosity_level" = true <;>
      simp [hnm, hv, lookupParam_append, lookupParam_cons, acceptedParams, hDm]
  · intro hnv
    unfold bindParameters
    by_cases hm : sig.memB "model_name" = true <;>
      cases modelName <;>
      simp [hnv, hm, lookupParam_append, lookupParam_cons, acceptedParams, hDv]
  · intro p v hres hmem hconf
    rw [lookupParam_bindParameters sig configured text modelName verbosity p hres]
    unfold acceptedParams
    exact acceptedLoop_lookup_of_mem sig configured p v hres hmem hconf
      sig.paramList (paramList_mem_of_memB sig p hmem)
  · intro p hres hmemf hvk
    rw [lookupParam_bindParameters sig configured text modelName verbosity p hres]
    unfold acceptedParams
    cases hlook : lookupParam (acceptedLoop sig configured sig.paramList) p with
    | none => rfl
    | some v =>
      exfalso
      rcases acceptedLoop_lookup_some sig configured p v sig.paramList hlook with
        ⟨b, hb⟩ | ⟨n, hn⟩
      · have := memB_of_paramList_mem sig p b hb
        rw [hmemf] at this
        exact Bool.noConfusion this
      · have := varKeyword_isSome_of_paramList sig n hn
        rw [hvk] at this
        simp at this
  · intro p v hres hmemf hlook
    rw [lookupParam_bindParameters sig configured text modelName verbosity p hres]
      at hlook
    unfold acceptedParams at hlook
    rcases acceptedLoop_lookup_some sig configured p v sig.paramList hlook with
      ⟨b, hb⟩ | ⟨n, hn⟩
    · have := memB_of_paramList_mem sig p b hb
      rw [hmemf] at this
      exact Bool.noConfusion this
    · exact varKeyword_isSome_of_paramList sig n hn

/-- Witness for C5: a configured param matching a declared parameter of a
concrete signature is forwarded with its configured value. -/
theorem bindParameters_respects_signature_witness :
    lookupParam
      (bindParameters ⟨["text", "model_name", "extra"], some "kwargs"⟩
        [("extra", Value.str "e"), ("unknown", Value.nat 7)]
        "hi" (some "m") 0) "extra" = some (Value.str "e") :=
  (bindParameters_respects_signature
      ⟨["text", "model_name", "extra"], some "kwargs"⟩
      [("extra", Value.str "e"), ("unknown", Value.nat 7)]
      "hi" (some "m") 0).2.2.1 "extra" (Value.str "e")
    (by decide) (by decide) rfl

end ReflectAi
